import Mathlib

/-!
Shallow embedding of `main.py` (KruzhokCrawlerStage1): a crawler that, per
organization, fetches the site, extracts page metadata and discovers social
profile links with follower counts.

Network and HTML parsing are external effects; they are modelled by an explicit
environment (`Env`) mapping URLs to optional HTTP responses (`none` models a
raised exception of `requests.get`) and mapping raw HTML text to a parsed
document (`Soup`).  Python strings are Lean `String`s, manipulated through
their character lists; Python's `re` patterns used in the source are compiled
into specific matchers (the patterns contain no general regex features beyond
character classes, a greedy `+` and one `.` wildcard).  Character classes `\d`
and `\w` are modelled by their ASCII cores.  Python exceptions inside
`extract_followers`'s `try` block are modelled by `Except Unit`.
-/

set_option autoImplicit false

/-- Substring containment, Python's `needle in hay` on strings. -/
def subOccurs (needle : List Char) : List Char → Bool
  | [] => needle.isEmpty
  | c :: rest => needle.isPrefixOf (c :: rest) || subOccurs needle rest

/-- Python `hay.__contains__(needle)` lifted to `String`. -/
def strContains (hay needle : String) : Bool :=
  subOccurs needle.data hay.data

/-- Python `s.startswith(pre)`. -/
def pyStartsWith (s pre : String) : Bool :=
  pre.data.isPrefixOf s.data

/-- Characters matched by the class `[\d,]` in the source's patterns. -/
def isDigitOrComma (c : Char) : Bool := c.isDigit || c == ','

/-- Characters matched by `\w` (ASCII core). -/
def isWordChar (c : Char) : Bool := c.isAlphanum || c == '_'

/-- Literal prefix of `VK_REGEXP = r'<em class="pm_counter">([\d,]+)</em>'`. -/
def vkCounterPre : List Char := ("<em class=\"pm_counter\">").data

/-- Python `re.match(VK_REGEXP, s)`: the pattern must match at the start of
`s`; returns the captured `[\d,]+` group.  The greedy group cannot backtrack
usefully because `<` is outside the class, so the maximal run is the only
candidate. -/
def vkMatch (s : String) : Option String :=
  let cs := s.data
  if vkCounterPre.isPrefixOf cs then
    let rest := cs.drop vkCounterPre.length
    let grp := rest.takeWhile isDigitOrComma
    if grp.isEmpty then none
    else if ("</em>").data.isPrefixOf (rest.drop grp.length) then some ⟨grp⟩
    else none
  else none

/-- Literal tail of `FACEBOOK_REGEXP = r'([\d,]+) people follow this'`. -/
def fbNeedle : List Char := (" people follow this").data

/-- Python `re.search(FACEBOOK_REGEXP, s)` over the tail of the body: tries
each position left to right; a match at a position is the maximal `[\d,]+` run
there followed by the literal tail (the space after the group rules out
backtracking to a shorter run). -/
def fbSearchAux : List Char → Option String
  | [] => none
  | c :: rest =>
    let run := (c :: rest).takeWhile isDigitOrComma
    if run.isEmpty then fbSearchAux rest
    else if fbNeedle.isPrefixOf ((c :: rest).drop run.length) then some ⟨run⟩
    else fbSearchAux rest

/-- Python `re.search(FACEBOOK_REGEXP, s)`, returning the captured group. -/
def fbSearch (s : String) : Option String := fbSearchAux s.data

/-- The pattern `TWITTER_URL_REGEXP = r"https://twitter.com/(\w+)"`; note the
unescaped `.` is the regex wildcard. -/
def twitterUrlPat : List Char := ("https://twitter.com/").data

/-- Matches a pattern prefix where the character `.` is the wildcard. -/
def dotPrefixMatch : List Char → List Char → Option (List Char)
  | [], cs => some cs
  | _ :: _, [] => none
  | p :: ps, c :: cs => if p == '.' || p == c then dotPrefixMatch ps cs else none

/-- Python `re.match(TWITTER_URL_REGEXP, url)`: anchored prefix match followed
by a nonempty `\w+` group (maximal, nothing follows it in the pattern). -/
def twitterMatch (url : String) : Option String :=
  match dotPrefixMatch twitterUrlPat url.data with
  | none => none
  | some rest =>
    let grp := rest.takeWhile isWordChar
    if grp.isEmpty then none else some ⟨grp⟩

/-- Python `s.replace(',', '')` on the captured group. -/
def stripCommas (s : String) : String := ⟨s.data.filter (fun c => c != ',')⟩

/-- Value of a decimal digit string. -/
def digitsToNat (ds : List Char) : Nat :=
  ds.foldl (fun acc c => acc * 10 + (c.toNat - 48)) 0

/-- Python `int(s)` restricted to the strings reachable here (digits and the
empty string): `int("")` raises (`none`); a digit string parses. -/
def pyIntDigits (s : List Char) : Option Int :=
  if s.isEmpty then none
  else if s.all (fun c => c.isDigit) then some (digitsToNat s) else none

mutual
/-- JSON values as returned by `resp.json()`; numbers are modelled by `Int`
(all counts in play are integers). -/
inductive Json where
  | null : Json
  | jbool : Bool → Json
  | num : Int → Json
  | str : String → Json
  | arr : JsonItems → Json
  | obj : JsonFields → Json

/-- Spine of a JSON array. -/
inductive JsonItems where
  | nil : JsonItems
  | cons : Json → JsonItems → JsonItems

/-- Spine of a JSON object (keys are unique in parsed JSON). -/
inductive JsonFields where
  | nil : JsonFields
  | fcons : String → Json → JsonFields → JsonFields
end

deriving instance DecidableEq for Json

/-- First field with the given key. -/
def JsonFields.findKey : JsonFields → String → Option Json
  | .nil, _ => none
  | .fcons k v rest, key => if k == key then some v else rest.findKey key

/-- Python `d[key]` for a string key: dictionary lookup; a missing key
(`KeyError`) or a non-dict receiver (`TypeError`) is an exception, `none`. -/
def Json.sub : Json → String → Option Json
  | .obj fs, key => fs.findKey key
  | _, _ => none

/-- Python `d[0]`: first element of a list (a string also supports indexing,
yielding a one-character string); other receivers raise. -/
def Json.first : Json → Option Json
  | .arr (.cons x _) => some x
  | .str s => (s.data.head?).map (fun c => Json.str ⟨[c]⟩)
  | _ => none

/-- An HTTP response as seen through `requests`: `ok` is `status_code < 400`,
`text` the body, `json` the parsed payload (`none` models `.json()` raising). -/
structure HttpResp where
  ok : Bool
  text : String
  json : Option Json

/-- An element of the parsed document, flattened in document order.  Only the
attributes the source reads are modelled. -/
structure Elem where
  tag : String
  nameAttr : Option String
  content : Option String
  href : Option String
  innerText : String
deriving DecidableEq

/-- A parsed page (`BeautifulSoup` value): its elements in document order. -/
structure Soup where
  elems : List Elem
deriving DecidableEq

/-- The external world: `get url` is `requests.get(url)` (`none` models a
raised exception; headers and redirect flags do not change the model), and
`parseHtml` is `BeautifulSoup(text, features="lxml")`. -/
structure Env where
  get : String → Option HttpResp
  parseHtml : String → Soup

/-- Lifts an optional value into the exception monad of the `try` block. -/
def liftExc {α : Type} : Option α → Except Unit α
  | some a => .ok a
  | none => .error ()

/-- Body of the `vk` branch of `extract_followers`'s `try` block. -/
def extractVk (env : Env) (url : String) : Except Unit Json := do
  let resp ← liftExc (env.get url)
  match vkMatch resp.text with
  | none => pure (Json.num (-1))
  | some grp => do
    let n ← liftExc (pyIntDigits (stripCommas grp).data)
    pure (Json.num n)

/-- Body of the `instagram` branch: fetch `url + "?__a=1"`, parse JSON, read
`data['graphql']['user']['edge_followed_by']['count']`. -/
def extractInstagram (env : Env) (url : String) : Except Unit Json := do
  let resp ← liftExc (env.get (url ++ "?__a=1"))
  let data ← liftExc resp.json
  let v ← liftExc ((((data.sub "graphql").bind (Json.sub · "user")).bind
      (Json.sub · "edge_followed_by")).bind (Json.sub · "count"))
  pure v

/-- Body of the `facebook` branch. -/
def extractFacebook (env : Env) (url : String) : Except Unit Json := do
  let resp ← liftExc (env.get url)
  match fbSearch resp.text with
  | none => pure (Json.num (-1))
  | some grp => do
    let n ← liftExc (pyIntDigits (stripCommas grp).data)
    pure (Json.num n)

/-- The unofficial follow-button endpoint URL built in the `twitter` branch. -/
def twitterInfoUrl (screenName : String) : String :=
  "https://cdn.syndication.twimg.com/widgets/followbutton/info.json?screen_names="
    ++ screenName

/-- Body of the `twitter` branch: parse the screen name out of the profile
URL, call the endpoint, read `data[0]['followers_count']`. -/
def extractTwitter (env : Env) (url : String) : Except Unit Json :=
  match twitterMatch url with
  | none => pure (Json.num (-1))
  | some screenName => do
    let resp ← liftExc (env.get (twitterInfoUrl screenName))
    let data ← liftExc resp.json
    let v ← liftExc ((data.first).bind (Json.sub · "followers_count"))
    pure v

/-- The `except Exception` handler: a raised exception becomes `-1`. -/
def catchNeg1 : Except Unit Json → Json
  | .ok v => v
  | .error _ => Json.num (-1)

/-- `extract_followers(provider, url)` from the source.  `none` models the
`raise NotImplementedError` reached when the provider is outside the dispatch;
for the four known providers the result is the caught branch value.  The
returned `Json` is whatever the branch produced (the instagram and twitter
branches pass the endpoint's JSON value through unvalidated). -/
def extract_followers (env : Env) (provider url : String) : Option Json :=
  if provider == "vk" then some (catchNeg1 (extractVk env url))
  else if provider == "instagram" then some (catchNeg1 (extractInstagram env url))
  else if provider == "facebook" then some (catchNeg1 (extractFacebook env url))
  else if provider == "twitter" then some (catchNeg1 (extractTwitter env url))
  else none

/-- Python `soup.find_all(t)`: all elements with the given tag, in document
order. -/
def Soup.findAll (s : Soup) (t : String) : List Elem :=
  s.elems.filter (fun e => e.tag == t)

/-- `find_links(soup, domain)` from the source: loop over all anchors, skip
those without an `href` attribute, append the raw `href` when `domain` occurs
anywhere inside it. -/
def find_links (soup : Soup) (domain : String) : List String :=
  (soup.findAll "a").foldl (fun results link =>
    match link.href with
    | none => results
    | some h => if strContains h domain then results ++ [h] else results) []

/-- Scanner for Python `s.replace(pat, '')`: removes every non-overlapping,
leftmost-first occurrence of `pat`.  The `fuel` argument only forces
structural termination; every step consumes at least one character, so a fuel
equal to the scanned list's length never runs out (the `0` case is unreachable
from `stripAll`). -/
def stripAllFuel (pat : List Char) : Nat → List Char → List Char
  | _, [] => []
  | 0, s => s
  | fuel + 1, c :: cs =>
    if pat ≠ [] ∧ pat.isPrefixOf (c :: cs) = true then
      stripAllFuel pat fuel ((c :: cs).drop pat.length)
    else
      c :: stripAllFuel pat fuel cs

/-- Python `s.replace(pat, '')` with a nonempty `pat`. -/
def stripAll (pat s : List Char) : List Char :=
  stripAllFuel pat s.length s

/-- The expression `self.url.replace("http://", "").replace("https://", "")`
computing the same-site matching substring in `crawl`. -/
def stripSchemes (u : String) : String :=
  ⟨stripAll ("https://").data (stripAll ("http://").data u.data)⟩

/-- CSS select used by `fetch_metadata`:
`soup.select('[name=A][content], [name=a][content]')`.  Soupsieve compares the
value of the `name` attribute case-sensitively (`name` is not in HTML's list
of case-insensitive attribute values), so exactly the two spellings given in
the selector match; `[content]` requires the attribute to be present.  The
union of the two selectors is returned in document order. -/
def metaSelect (soup : Soup) (n1 n2 : String) : List Elem :=
  soup.elems.filter
    (fun e => (e.nameAttr == some n1 || e.nameAttr == some n2) && e.content.isSome)

/-- `fetch_metadata(soup)` from the source: the title element's text (the
`getattr(soup.title, 'text', '')` default when no title element exists) and
the `content` values of the selected keyword / description elements. -/
def fetch_metadata (soup : Soup) : String × List String × List String :=
  let title := match soup.elems.find? (fun e => e.tag == "title") with
    | some t => t.innerText
    | none => ""
  let keywords := (metaSelect soup "Keywords" "keywords").map
    (fun e => e.content.getD "")
  let descriptions := (metaSelect soup "Description" "description").map
    (fun e => e.content.getD "")
  (title, keywords, descriptions)

/-- A discovered social link: `(provider, url, follower count)`; the count is
the `Json` value `extract_followers` produced. -/
abbrev Triple := String × String × Json

/-- `SocialCrawler.social_providers` from the source. -/
def socialProviders : List (String × String) :=
  [("vk", "vk.com"), ("facebook", "facebook.com"),
   ("twitter", "twitter.com"), ("instagram", "instagram.com")]

/-- The list of providers `extract_followers` dispatches on. -/
def knownProviders : List String := ["vk", "instagram", "facebook", "twitter"]

/-- Value used for triples inside `crawl`, where the provider is always one of
the four known ones and `extract_followers` therefore always returns a value
(see `extract_followers_known`). -/
def extractKnown (env : Env) (provider url : String) : Json :=
  (extract_followers env provider url).getD (Json.num (-1))

/-- Python `set.add` on the result set, with insertion order retained:
deduplication is by full equality of the triple. -/
def setAdd (rs : List Triple) (t : Triple) : List Triple :=
  if t ∈ rs then rs else rs ++ [t]

/-- The provider loop of `crawl`: for every provider, for every link whose URL
contains the provider's domain, add the extracted triple to the result set. -/
def collectSocial (env : Env) (soup : Soup) (rs : List Triple) : List Triple :=
  socialProviders.foldl (fun rs pd =>
    (find_links soup pd.2).foldl
      (fun rs link => setAdd rs (pd.1, link, extractKnown env pd.1 link)) rs) rs

/-- One discovered same-site link: enqueue it (and mark it visited) only when
it is not already in the visited set. -/
def enqStep (wq : List String × List String) (link : String) :
    List String × List String :=
  if link ∈ wq.1 then wq else (wq.1 ++ [link], wq.2 ++ [link])

/-- Observable state of one `crawl` invocation: the returned result set, plus
the instrumented visited set `was`, remaining frontier `q`, and the list of
URLs passed to `requests.get`, in fetch order. -/
structure CrawlOut where
  results : List Triple
  was : List String
  q : List String
  fetched : List String

/-- The `while len(q) > 0 and cnt < MAX_ITER` loop of `SocialCrawler.crawl`.
`fuel` is `MAX_ITER - cnt` (the counter is incremented on every iteration, so
the loop runs at most `MAX_ITER` times); `facc` accumulates the fetched URLs.
An exception from `requests.get` (`env.get = none`) or a non-ok response skips
to the next frontier item. -/
def crawlLoop (env : Env) (selfUrl : String) :
    Nat → List String → List String → List Triple → List String → CrawlOut
  | 0, q, was, rs, facc => ⟨rs, was, q, facc⟩
  | _ + 1, [], was, rs, facc => ⟨rs, was, [], facc⟩
  | fuel + 1, nxt :: q, was, rs, facc =>
    match env.get nxt with
    | none => crawlLoop env selfUrl fuel q was rs (facc ++ [nxt])
    | some resp =>
      if resp.ok then
        let soup := env.parseHtml resp.text
        let rs := collectSocial env soup rs
        let wq := (find_links soup (stripSchemes selfUrl)).foldl enqStep (was, q)
        crawlLoop env selfUrl fuel wq.2 wq.1 rs (facc ++ [nxt])
      else crawlLoop env selfUrl fuel q was rs (facc ++ [nxt])

/-- `SocialCrawler.MAX_ITER` from the source. -/
def MAX_ITER : Nat := 1

/-- `SocialCrawler(url).crawl()`: frontier and visited set start at the seed,
counter at 0, result set empty. -/
def crawl (env : Env) (url : String) : CrawlOut :=
  crawlLoop env url MAX_ITER [url] [url] [] []

/-- Values stored in an organization record (an open JSON-sourced dict plus
the values the processor writes). -/
inductive Val where
  | vs : String → Val
  | vb : Bool → Val
  | vi : Int → Val
  | vls : List String → Val
  | vtr : List Triple → Val
deriving DecidableEq

/-- An organization record: a Python dict in insertion order (unique keys). -/
abbrev Org := List (String × Val)

/-- Python `d[k]` / `d.get(k)`: value of the first entry with key `k`. -/
def dictLookup (d : Org) (k : String) : Option Val :=
  (d.find? (fun kv => kv.1 == k)).map (fun kv => kv.2)

/-- Python `d[k] = v`: replace the value in place when the key exists (its
position is kept), otherwise append a new entry. -/
def dictSet (d : Org) (k : String) (v : Val) : Org :=
  if (d.find? (fun kv => kv.1 == k)).isSome then
    d.map (fun kv => if kv.1 == k then (k, v) else kv)
  else d ++ [(k, v)]

/-- One entry of `a` as `{**a, **b}` keeps it: same key, value overridden by
`b` when `b` has the key. -/
def mergeVal (b : Org) (kv : String × Val) : String × Val :=
  (kv.1, match dictLookup b kv.1 with
    | some v => v
    | none => kv.2)

/-- Python `{**a, **b}`: keys of `a` in order (values overridden by `b` where
present), then keys of `b` not in `a`, in order. -/
def dictMerge (a b : Org) : Org :=
  a.map (mergeVal b) ++ b.filter (fun kv => (dictLookup a kv.1).isNone)

/-- `add_dict_prefix(prefix, data)` from the source: a new dict whose keys are
prefixed. -/
def prefixKeys (pre : String) (d : Org) : Org :=
  d.map (fun kv => (pre ++ kv.1, kv.2))

/-- Observable outcome of `process(organization)`: the returned enriched dict,
the caller's organization dict after the call (`process` writes the normalized
site URL back into it before fetching), and the URL handed to `requests.get`. -/
structure ProcOut where
  output : Org
  orgAfter : Org
  fetchedUrl : String

/-- The normalized site URL: `http://` is prepended exactly when the stored
value does not start with the literal `http`. -/
def normUrl (u : String) : String :=
  if pyStartsWith u "http" then u else "http://" ++ u

/-- The caller's organization dict after the normalization step at the top of
`process`: the `site_url` value is rewritten in place when (and only when) it
does not start with `http`. -/
def normOrg (org : Org) (u : String) : Org :=
  if pyStartsWith u "http" then org
  else dictSet org "site_url" (Val.vs ("http://" ++ u))

/-- `site_available`: a response arrived and was successful. -/
def availFor (r : Option HttpResp) : Bool :=
  match r with
  | some r => r.ok
  | none => false

/-- Metadata and social triples of `process`: on an available site, parse the
page, extract metadata and crawl from the normalized URL; otherwise the
defaults (empty string and empty lists). -/
def metaFor (env : Env) (r : Option HttpResp) (u' : String) :
    String × List String × List String × List Triple :=
  match r with
  | some r =>
    if r.ok then
      let tkd := fetch_metadata (env.parseHtml r.text)
      (tkd.1, tkd.2.1, tkd.2.2, (crawl env u').results)
    else ("", [], [], [])
  | none => ("", [], [], [])

/-- The dict merged over the organization by `process`'s return expression:
`add_dict_prefix("site_", {...})` plus the `social_urls` entry. -/
def enrichDict (avail : Bool)
    (meta : String × List String × List String × List Triple) : Org :=
  prefixKeys "site_"
    [("available", Val.vb avail), ("title", Val.vs meta.1),
     ("keywords", Val.vls meta.2.1), ("descriptions", Val.vls meta.2.2.1)]
    ++ [("social_urls", Val.vtr meta.2.2.2)]

/-- `process(organization)` from the source.  `none` models the uncaught
exception when the record has no `site_url` key or a non-string value there
(`KeyError` / `AttributeError`); nothing else escapes: the fetch is wrapped in
a bare `except`, and an absent or non-ok response selects the default
metadata. -/
def process (env : Env) (org : Org) : Option ProcOut :=
  match dictLookup org "site_url" with
  | some (Val.vs u) =>
    some {
      output := dictMerge (normOrg org u)
        (enrichDict (availFor (env.get (normUrl u)))
          (metaFor env (env.get (normUrl u)) (normUrl u))),
      orgAfter := normOrg org u,
      fetchedUrl := normUrl u }
  | _ => none

/-- An environment in which every request raises. -/
def envDead : Env where
  get := fun _ => none
  parseHtml := fun _ => ⟨[]⟩

/-- An anchor element with the given target. -/
def anchor (h : Option String) : Elem :=
  { tag := "a", nameAttr := none, content := none, href := h, innerText := "" }

/-- Seed page of the sample environment: one vk profile link and one
same-site link. -/
def soupSample : Soup :=
  ⟨[anchor (some "http://vk.com/x"), anchor (some "http://a.com/p1")]⟩

/-- A small deterministic environment: the seed resolves to `soupSample`, the
vk profile page carries a follower counter. -/
def envSample : Env where
  get := fun u =>
    if u == "http://a.com" then some ⟨true, "seed", none⟩
    else if u == "http://vk.com/x" then
      some ⟨true, "<em class=\"pm_counter\">7</em>", none⟩
    else none
  parseHtml := fun t => if t == "seed" then soupSample else ⟨[]⟩

example : (crawl envDead "http://a.com").fetched = ["http://a.com"] := by decide
example : (crawl envDead "http://a.com").results = [] := by decide
example : (crawl envSample "http://a.com").results
    = [("vk", "http://vk.com/x", Json.num 7)] := by decide
example : (crawl envSample "http://a.com").q = ["http://a.com/p1"] := by decide
example : (crawl envSample "http://a.com").was
    = ["http://a.com", "http://a.com/p1"] := by decide
example : (process envDead [("name", Val.vs "Acme"), ("site_url", Val.vs "a.com")]).map
      (fun po => po.orgAfter)
    = some [("name", Val.vs "Acme"), ("site_url", Val.vs "http://a.com")] := by decide
example : (process envDead [("site_url", Val.vs "a.com")]).map (fun po => po.output)
    = some [("site_url", Val.vs "http://a.com"),
        ("site_available", Val.vb false), ("site_title", Val.vs ""),
        ("site_keywords", Val.vls []), ("site_descriptions", Val.vls []),
        ("social_urls", Val.vtr [])] := by decide

example : vkMatch "<em class=\"pm_counter\">1,234</em> x" = some "1,234" := by decide
example : vkMatch "x<em class=\"pm_counter\">1</em>" = none := by decide
example : fbSearch "ab 1,234 people follow this" = some "1,234" := by decide
example : fbSearch "no people follow this" = none := by decide
example : twitterMatch "https://twitter.com/ab_c?x=1" = some "ab_c" := by decide
example : twitterMatch "https://twitter.com/" = none := by decide
example : twitterMatch "https://twitterXcom/ab" = some "ab" := by decide
example : pyIntDigits ("1234").data = some 1234 := by decide
example : pyIntDigits [] = none := by decide

/-! ## Lemmas about `find_links` -/

/-- The anchor loop of `find_links`, characterised as a `filterMap`. -/
theorem find_links_foldl (domain : String) :
    ∀ (l : List Elem) (acc : List String),
      (l.foldl (fun results link =>
        match link.href with
        | none => results
        | some h => if strContains h domain then results ++ [h] else results) acc)
      = acc ++ l.filterMap (fun e =>
          match e.href with
          | none => none
          | some h => if strContains h domain then some h else none) := by
  intro l
  induction l with
  | nil => simp
  | cons e l ih =>
    intro acc
    cases he : e.href with
    | none => simp [List.foldl_cons, he, ih]
    | some h =>
      by_cases hc : strContains h domain = true
      · simp [List.foldl_cons, he, hc, ih]
      · simp only [Bool.not_eq_true] at hc
        simp [List.foldl_cons, he, hc, ih]

/-- C8: `find_links` returns exactly the unmodified `href` values, without
deduplication, of the anchor elements that have an `href` attribute whose value
contains the domain substring anywhere; anchors without `href` are skipped.
On the page with anchors `http://vk.com/x`, `http://other.com/y` and one
anchor without `href`, domain `vk.com` yields exactly `["http://vk.com/x"]`. -/
theorem C8_find_links :
    (∀ (soup : Soup) (domain : String),
      find_links soup domain = (soup.findAll "a").filterMap (fun e =>
        match e.href with
        | none => none
        | some h => if strContains h domain then some h else none)) ∧
    find_links ⟨[anchor (some "http://vk.com/x"), anchor (some "http://other.com/y"),
        anchor none]⟩ "vk.com" = ["http://vk.com/x"] := by
  constructor
  · intro soup domain
    simpa using find_links_foldl domain (soup.findAll "a") []
  · decide

/-! ## Lemmas about `fetch_metadata` -/

/-- Title component of the page, as the amended claim words it: the first
title element's text, or the empty string when none exists. -/
def titleOf (soup : Soup) : String :=
  match soup.elems.find? (fun e => e.tag == "title") with
  | some t => t.innerText
  | none => ""

/-- Meta collection as the amended claim words it: the `content` attribute of
every element, in document order and without deduplication, whose `name`
attribute equals one of the two exact spellings appearing in the source's
selector (the all-lowercase and the capitalized one). -/
def metaContentsFor (soup : Soup) (nLow nCap : String) : List String :=
  soup.elems.filterMap (fun e =>
    match e.nameAttr, e.content with
    | some n, some c => if n = nLow ∨ n = nCap then some c else none
    | _, _ => none)

/-- Meta collection as claim C4 words it: the `name` attribute is compared
case-insensitively against the target. -/
def lowerChar (c : Char) : Char :=
  if c.isUpper then Char.ofNat (c.toNat + 32) else c

/-- ASCII lowercasing of a string, for the case-insensitive comparison the
claim describes. -/
def lowerStr (s : String) : String := ⟨s.data.map lowerChar⟩

/-- Collection of meta contents under a case-insensitive attribute-name match,
following claim C4's words. -/
def metaContentsCI (soup : Soup) (target : String) : List String :=
  soup.elems.filterMap (fun e =>
    match e.nameAttr, e.content with
    | some n, some c => if lowerStr n = target then some c else none
    | _, _ => none)

/-- The selected elements of `metaSelect`, mapped to their contents, equal the
direct `filterMap` description. -/
theorem metaSelect_map (l : List Elem) (nCap nLow : String) :
    (metaSelect ⟨l⟩ nCap nLow).map (fun e => e.content.getD "")
      = metaContentsFor ⟨l⟩ nLow nCap := by
  induction l with
  | nil => rfl
  | cons e l ih =>
    simp only [metaSelect, metaContentsFor] at ih ⊢
    cases hn : e.nameAttr with
    | none => simpa [List.filter_cons, hn] using ih
    | some n =>
      cases hc : e.content with
      | none => simp [List.filter_cons, hn, hc, ih]
      | some c =>
        by_cases h1 : n = nCap
        · simp [List.filter_cons, hn, hc, h1, ih]
        · by_cases h2 : n = nLow
          · simp [List.filter_cons, hn, hc, h1, h2, ih]
          · simp [List.filter_cons, hn, hc, h1, h2, ih]

/-- A title element with the given text. -/
def titleElem (t : String) : Elem :=
  { tag := "title", nameAttr := none, content := none, href := none, innerText := t }

/-- A meta element with the given `name` and `content` attributes. -/
def metaElem (n c : String) : Elem :=
  { tag := "meta", nameAttr := some n, content := some c, href := none, innerText := "" }

/-- C4 counterexample: on a page whose only element is a meta tag with
`name="KEYWORDS"` and `content="a"`, the code collects nothing, while the
claim's case-insensitive description collects `["a"]`; the attribute value is
matched only against the two exact spellings `Keywords` / `keywords`. -/
theorem C4_counterexample :
    (fetch_metadata ⟨[metaElem "KEYWORDS" "a"]⟩).2.1 = [] ∧
    metaContentsCI ⟨[metaElem "KEYWORDS" "a"]⟩ "keywords" = ["a"] ∧
    (fetch_metadata ⟨[metaElem "KEYWORDS" "a"]⟩).2.1
      ≠ metaContentsCI ⟨[metaElem "KEYWORDS" "a"]⟩ "keywords" := by
  refine ⟨by decide, by decide, by decide⟩

/-- C4 (amended): `fetch_metadata` returns the first title element's text
(empty string when no title element exists) together with the lists of
`content` attribute values of the elements whose `name` attribute equals
exactly `keywords` or `Keywords` (respectively `description` or
`Description`), in document order and without deduplication; on the spec's
example page (`<title>Foo</title>` plus meta tags named `Keywords`/`keywords`
with contents `a` and `b`) it returns `("Foo", ["a", "b"], [])`. -/
theorem C4_amended :
    (∀ soup : Soup, fetch_metadata soup =
      (titleOf soup, metaContentsFor soup "keywords" "Keywords",
        metaContentsFor soup "description" "Description")) ∧
    fetch_metadata ⟨[titleElem "Foo", metaElem "Keywords" "a", metaElem "keywords" "b"]⟩
      = ("Foo", ["a", "b"], []) := by
  constructor
  · intro soup
    obtain ⟨l⟩ := soup
    exact congrArg₂ Prod.mk rfl
      (congrArg₂ Prod.mk (metaSelect_map l "Keywords" "keywords")
        (metaSelect_map l "Description" "description"))
  · decide

/-! ## Lemmas about `extract_followers` -/

/-- A successfully parsed digit string is a non-negative integer. -/
theorem pyIntDigits_nonneg (s : List Char) (n : Int) (h : pyIntDigits s = some n) :
    0 ≤ n := by
  unfold pyIntDigits at h
  split at h
  · exact absurd h (by simp)
  · split at h
    · obtain rfl : (digitsToNat s : Int) = n := Option.some.inj h
      exact Int.natCast_nonneg _
    · exact absurd h (by simp)

/-- A non-raising run of the vk branch yields an integer at least `-1`. -/
theorem extractVk_ok (env : Env) (url : String) (v : Json)
    (h : extractVk env url = .ok v) : ∃ n : Int, v = Json.num n ∧ -1 ≤ n := by
  unfold extractVk at h
  cases hg : env.get url with
  | none => simp [hg, liftExc, Bind.bind, Except.bind] at h
  | some resp =>
    cases hm : vkMatch resp.text with
    | none =>
      simp [hg, hm, liftExc, Bind.bind, Except.bind, Pure.pure, Except.pure] at h
      exact ⟨-1, h.symm, le_refl _⟩
    | some grp =>
      cases hi : pyIntDigits (stripCommas grp).data with
      | none => simp [hg, hm, hi, liftExc, Bind.bind, Except.bind] at h
      | some n =>
        simp [hg, hm, hi, liftExc, Bind.bind, Except.bind, Pure.pure,
          Except.pure] at h
        exact ⟨n, h.symm, le_trans (by norm_num) (pyIntDigits_nonneg _ _ hi)⟩

/-- A non-raising run of the facebook branch yields an integer at least `-1`. -/
theorem extractFacebook_ok (env : Env) (url : String) (v : Json)
    (h : extractFacebook env url = .ok v) : ∃ n : Int, v = Json.num n ∧ -1 ≤ n := by
  unfold extractFacebook at h
  cases hg : env.get url with
  | none => simp [hg, liftExc, Bind.bind, Except.bind] at h
  | some resp =>
    cases hm : fbSearch resp.text with
    | none =>
      simp [hg, hm, liftExc, Bind.bind, Except.bind, Pure.pure, Except.pure] at h
      exact ⟨-1, h.symm, le_refl _⟩
    | some grp =>
      cases hi : pyIntDigits (stripCommas grp).data with
      | none => simp [hg, hm, hi, liftExc, Bind.bind, Except.bind] at h
      | some n =>
        simp [hg, hm, hi, liftExc, Bind.bind, Except.bind, Pure.pure,
          Except.pure] at h
        exact ⟨n, h.symm, le_trans (by norm_num) (pyIntDigits_nonneg _ _ hi)⟩

/-- Dispatch of `extract_followers` on the vk provider tag. -/
theorem extract_vk_eq (env : Env) (url : String) :
    extract_followers env "vk" url = some (catchNeg1 (extractVk env url)) := rfl

/-- Dispatch of `extract_followers` on the instagram provider tag. -/
theorem extract_instagram_eq (env : Env) (url : String) :
    extract_followers env "instagram" url
      = some (catchNeg1 (extractInstagram env url)) := rfl

/-- Dispatch of `extract_followers` on the facebook provider tag. -/
theorem extract_facebook_eq (env : Env) (url : String) :
    extract_followers env "facebook" url
      = some (catchNeg1 (extractFacebook env url)) := rfl

/-- Dispatch of `extract_followers` on the twitter provider tag. -/
theorem extract_twitter_eq (env : Env) (url : String) :
    extract_followers env "twitter" url
      = some (catchNeg1 (extractTwitter env url)) := rfl

/-- With a response in hand but no counter pattern at the start of the body,
the vk branch returns the sentinel normally (no exception involved). -/
theorem extractVk_nomatch (env : Env) (url : String) (resp : HttpResp)
    (hg : env.get url = some resp) (hm : vkMatch resp.text = none) :
    extractVk env url = .ok (Json.num (-1)) := by
  simp [extractVk, hg, hm, liftExc, Bind.bind, Except.bind, Pure.pure, Except.pure]

/-- With a response in hand but no follower pattern anywhere in the body, the
facebook branch returns the sentinel normally. -/
theorem extractFacebook_nomatch (env : Env) (url : String) (resp : HttpResp)
    (hg : env.get url = some resp) (hm : fbSearch resp.text = none) :
    extractFacebook env url = .ok (Json.num (-1)) := by
  simp [extractFacebook, hg, hm, liftExc, Bind.bind, Except.bind, Pure.pure,
    Except.pure]

/-- When the profile URL does not match the pattern, the twitter branch
returns the sentinel without fetching anything. -/
theorem extractTwitter_nomatch (env : Env) (url : String)
    (hm : twitterMatch url = none) : extractTwitter env url = .ok (Json.num (-1)) := by
  simp [extractTwitter, hm, Pure.pure, Except.pure]

/-- C5: a malformed or missing expected pattern yields exactly `-1`: a vk body
whose counter pattern does not match at the start, a facebook body in which
the follower pattern occurs nowhere, and a twitter profile URL that does not
match `https://twitter.com/<name>` each produce the sentinel. -/
theorem C5_missing_pattern_sentinel (env : Env) (url : String) (resp : HttpResp) :
    (env.get url = some resp → vkMatch resp.text = none →
      extract_followers env "vk" url = some (Json.num (-1))) ∧
    (env.get url = some resp → fbSearch resp.text = none →
      extract_followers env "facebook" url = some (Json.num (-1))) ∧
    (twitterMatch url = none →
      extract_followers env "twitter" url = some (Json.num (-1))) := by
  refine ⟨fun hg hm => ?_, fun hg hm => ?_, fun hm => ?_⟩
  · rw [extract_vk_eq, extractVk_nomatch env url resp hg hm]; rfl
  · rw [extract_facebook_eq, extractFacebook_nomatch env url resp hg hm]; rfl
  · rw [extract_twitter_eq, extractTwitter_nomatch env url hm]; rfl

/-- An environment whose every response has the body `hello`. -/
def envHello : Env where
  get := fun _ => some ⟨true, "hello", none⟩
  parseHtml := fun _ => ⟨[]⟩

/-- Witness for C5 at concrete inputs: the body `hello` matches neither
pattern and `notaprofile` is not a twitter profile URL. -/
theorem C5_missing_pattern_sentinel_witness :
    (envHello.get "http://vk.com/p" = some ⟨true, "hello", none⟩ ∧
      vkMatch "hello" = none ∧ fbSearch "hello" = none ∧
      twitterMatch "notaprofile" = none) ∧
    extract_followers envHello "vk" "http://vk.com/p" = some (Json.num (-1)) ∧
    extract_followers envHello "facebook" "http://facebook.com/p"
      = some (Json.num (-1)) ∧
    extract_followers envHello "twitter" "notaprofile" = some (Json.num (-1)) := by
  refine ⟨⟨rfl, by decide, by decide, by decide⟩, ?_, ?_, ?_⟩
  · exact (C5_missing_pattern_sentinel envHello "http://vk.com/p"
      ⟨true, "hello", none⟩).1 rfl (by decide)
  · exact (C5_missing_pattern_sentinel envHello "http://facebook.com/p"
      ⟨true, "hello", none⟩).2.1 rfl (by decide)
  · exact (C5_missing_pattern_sentinel envHello "notaprofile"
      ⟨true, "hello", none⟩).2.2 (by decide)

/-- The instagram payload of the counterexample environment: a well-formed
nested object whose `count` field is the integer `-2`. -/
def igJson : Json :=
  .obj (.fcons "graphql" (.obj (.fcons "user" (.obj (.fcons "edge_followed_by"
    (.obj (.fcons "count" (.num (-2)) .nil)) .nil)) .nil)) .nil)

/-- An environment whose endpoint answers every request with `igJson`. -/
def envNegCount : Env where
  get := fun _ => some ⟨true, "", some igJson⟩
  parseHtml := fun _ => ⟨[]⟩

/-- C1 counterexample: with the instagram provider and an endpoint whose JSON
carries `count = -2`, `extract_followers` returns the integer `-2` without any
exception, so the result is not `≥ -1`: the JSON-sourced count is passed
through unvalidated. -/
theorem C1_counterexample :
    extract_followers envNegCount "instagram" "http://instagram.com/acme"
      = some (Json.num (-2)) ∧ ¬ (-1 : Int) ≤ -2 :=
  ⟨by decide, by decide⟩

/-- C1 (amended): for each of the four known providers `extract_followers`
never raises (it always returns a value, and any exception raised inside the
branch is caught and converted to `-1`); for vk and facebook the result is
always an integer `≥ -1`, while for instagram and twitter the endpoint's JSON
value is returned unvalidated, so it is `≥ -1` only when the endpoint supplies
such a value. -/
theorem C1_amended (env : Env) (p url : String) (hp : p ∈ knownProviders) :
    (∃ v, extract_followers env p url = some v) ∧
    (p = "vk" ∨ p = "facebook" →
      ∃ n : Int, extract_followers env p url = some (Json.num n) ∧ -1 ≤ n) ∧
    (p = "instagram" → extractInstagram env url = .error () →
      extract_followers env p url = some (Json.num (-1))) ∧
    (p = "twitter" → extractTwitter env url = .error () →
      extract_followers env p url = some (Json.num (-1))) := by
  have hp' : p = "vk" ∨ p = "instagram" ∨ p = "facebook" ∨ p = "twitter" := by
    simpa [knownProviders] using hp
  rcases hp' with rfl | rfl | rfl | rfl
  · refine ⟨⟨_, extract_vk_eq env url⟩, fun _ => ?_, by simp, by simp⟩
    cases hE : extractVk env url with
    | error e => exact ⟨-1, by rw [extract_vk_eq, hE]; rfl, by norm_num⟩
    | ok v =>
      obtain ⟨n, rfl, hn⟩ := extractVk_ok env url v hE
      exact ⟨n, by rw [extract_vk_eq, hE]; rfl, hn⟩
  · refine ⟨⟨_, extract_instagram_eq env url⟩, by simp, fun _ hE => ?_, by simp⟩
    rw [extract_instagram_eq, hE]; rfl
  · refine ⟨⟨_, extract_facebook_eq env url⟩, fun _ => ?_, by simp, by simp⟩
    cases hE : extractFacebook env url with
    | error e => exact ⟨-1, by rw [extract_facebook_eq, hE]; rfl, by norm_num⟩
    | ok v =>
      obtain ⟨n, rfl, hn⟩ := extractFacebook_ok env url v hE
      exact ⟨n, by rw [extract_facebook_eq, hE]; rfl, hn⟩
  · refine ⟨⟨_, extract_twitter_eq env url⟩, by simp, by simp, fun _ hE => ?_⟩
    rw [extract_twitter_eq, hE]; rfl

/-- Witness for C1 (amended) at concrete inputs: the vk provider in the
environment where every request raises. -/
theorem C1_amended_witness :
    ("vk" ∈ knownProviders) ∧
    (∃ v, extract_followers envDead "vk" "http://vk.com/p" = some v) ∧
    (∃ n : Int, extract_followers envDead "vk" "http://vk.com/p"
      = some (Json.num n) ∧ -1 ≤ n) := by
  have h := C1_amended envDead "vk" "http://vk.com/p" (by decide)
  exact ⟨by decide, h.1, h.2.1 (Or.inl rfl)⟩

/-! ## Lemmas about the crawl loop -/

/-- The loop performs at most `fuel` more fetches: the counter is incremented
on every iteration, whatever the frontier holds. -/
theorem crawlLoop_fetched_len (env : Env) (selfUrl : String) :
    ∀ (fuel : Nat) (q was : List String) (rs : List Triple) (facc : List String),
      ((crawlLoop env selfUrl fuel q was rs facc).fetched).length
        ≤ facc.length + fuel := by
  intro fuel
  induction fuel with
  | zero => intro q was rs facc; simp [crawlLoop]
  | succ fuel ih =>
    intro q was rs facc
    cases q with
    | nil => simp [crawlLoop]
    | cons nxt q =>
      cases hg : env.get nxt with
      | none =>
        simp only [crawlLoop, hg]
        calc ((crawlLoop env selfUrl fuel q was rs (facc ++ [nxt])).fetched).length
            ≤ (facc ++ [nxt]).length + fuel := ih q was rs (facc ++ [nxt])
          _ ≤ facc.length + (fuel + 1) := by simp; omega
      | some resp =>
        cases hok : resp.ok with
        | false =>
          simp only [crawlLoop, hg, hok, Bool.false_eq_true, if_false]
          calc ((crawlLoop env selfUrl fuel q was rs (facc ++ [nxt])).fetched).length
              ≤ (facc ++ [nxt]).length + fuel := ih q was rs (facc ++ [nxt])
            _ ≤ facc.length + (fuel + 1) := by simp; omega
        | true =>
          simp only [crawlLoop, hg, hok, if_true]
          refine le_trans (ih _ _ _ (facc ++ [nxt])) ?_
          simp; omega

/-- With the configured cap, exactly the seed URL is handed to the fetcher. -/
theorem crawl_fetched (env : Env) (url : String) :
    (crawl env url).fetched = [url] := by
  unfold crawl MAX_ITER crawlLoop
  cases hg : env.get url with
  | none => simp [crawlLoop]
  | some resp =>
    cases hok : resp.ok with
    | false => simp [hok, crawlLoop]
    | true => simp [hok, crawlLoop]

/-- C2: a crawl performs at most `MAX_ITER` page fetches no matter how many
URLs are discovered and enqueued (the general loop fetches at most `fuel`
pages from any state), and with the configured cap of 1 the fetched list is
exactly the seed URL. -/
theorem C2_fetch_cap :
    (∀ (env : Env) (selfUrl : String) (fuel : Nat) (q was : List String)
        (rs : List Triple),
      ((crawlLoop env selfUrl fuel q was rs []).fetched).length ≤ fuel) ∧
    (∀ (env : Env) (url : String), (crawl env url).fetched = [url]) ∧
    MAX_ITER = 1 := by
  refine ⟨fun env selfUrl fuel q was rs => ?_, crawl_fetched, rfl⟩
  simpa using crawlLoop_fetched_len env selfUrl fuel q was rs []

/-- Discovery preserves the frontier invariant: assuming the fetched-or-queued
URLs `f ++ q` are duplicate-free and all marked visited, the same holds after
enqueueing any list of discovered links, because a link is enqueued (and
simultaneously marked visited) only when it is not yet in the visited set. -/
theorem enqStep_inv (links : List String) :
    ∀ (f was q : List String),
      (f ++ q).Nodup → (∀ u ∈ f ++ q, u ∈ was) →
      ((f ++ (links.foldl enqStep (was, q)).2).Nodup ∧
        ∀ u ∈ f ++ (links.foldl enqStep (was, q)).2,
          u ∈ (links.foldl enqStep (was, q)).1) := by
  induction links with
  | nil => intro f was q h1 h2; exact ⟨h1, h2⟩
  | cons link rest ih =>
    intro f was q h1 h2
    simp only [List.foldl_cons]
    by_cases hl : link ∈ was
    · simpa [enqStep, hl] using ih f was q h1 h2
    · have hnotfq : link ∉ f ++ q := fun hmem => hl (h2 _ hmem)
      have h1' : (f ++ (q ++ [link])).Nodup := by
        rw [← List.append_assoc, List.nodup_append_comm, List.singleton_append]
        exact List.nodup_cons.mpr ⟨hnotfq, h1⟩
      have h2' : ∀ u ∈ f ++ (q ++ [link]), u ∈ was ++ [link] := by
        intro u hu
        rw [← List.append_assoc] at hu
        rcases List.mem_append.mp hu with hu | hu
        · exact List.mem_append.mpr (Or.inl (h2 _ hu))
        · exact List.mem_append.mpr (Or.inr hu)
      simpa [enqStep, hl] using ih f (was ++ [link]) (q ++ [link]) h1' h2'

/-- Loop invariant of `crawlLoop`: when the already-fetched URLs together with
the frontier are duplicate-free and all visited, the final fetched list is
duplicate-free and the final frontier is still covered by the visited set. -/
theorem crawlLoop_inv (env : Env) (selfUrl : String) :
    ∀ (fuel : Nat) (q was : List String) (rs : List Triple) (facc : List String),
      (facc ++ q).Nodup → (∀ u ∈ facc ++ q, u ∈ was) →
      (((crawlLoop env selfUrl fuel q was rs facc).fetched).Nodup ∧
        ∀ u ∈ (crawlLoop env selfUrl fuel q was rs facc).q,
          u ∈ (crawlLoop env selfUrl fuel q was rs facc).was) := by
  intro fuel
  induction fuel with
  | zero =>
    intro q was rs facc h1 h2
    refine ⟨h1.of_append_left, fun u hu => h2 u ?_⟩
    exact List.mem_append.mpr (Or.inr hu)
  | succ fuel ih =>
    intro q was rs facc h1 h2
    cases q with
    | nil =>
      simp only [crawlLoop]
      exact ⟨by simpa using h1, by simp⟩
    | cons nxt q =>
      rw [List.append_cons] at h1 h2
      cases hg : env.get nxt with
      | none => simpa only [crawlLoop, hg] using ih q was rs (facc ++ [nxt]) h1 h2
      | some resp =>
        cases hok : resp.ok with
        | false =>
          simpa only [crawlLoop, hg, hok, Bool.false_eq_true, if_false] using
            ih q was rs (facc ++ [nxt]) h1 h2
        | true =>
          simp only [crawlLoop, hg, hok, if_true]
          obtain ⟨h1', h2'⟩ := enqStep_inv
            (find_links (env.parseHtml resp.text) (stripSchemes selfUrl))
            (facc ++ [nxt]) was q h1 h2
          exact ih _ _ _ (facc ++ [nxt]) h1' h2'

/-- C3: no URL is fetched twice.  For `crawl` itself the fetched list is
duplicate-free; in general, from any loop state whose frontier is
duplicate-free and fully covered by the visited set (as established by
pre-inserting the seed and by adding every enqueued link to the visited set at
enqueue time), the list of fetched URLs is duplicate-free and the remaining
frontier stays covered by the visited set. -/
theorem C3_no_duplicate_fetch :
    (∀ (env : Env) (url : String), ((crawl env url).fetched).Nodup) ∧
    (∀ (env : Env) (selfUrl : String) (fuel : Nat) (q was : List String)
        (rs : List Triple), q.Nodup → (∀ u ∈ q, u ∈ was) →
      (((crawlLoop env selfUrl fuel q was rs []).fetched).Nodup ∧
        ∀ u ∈ (crawlLoop env selfUrl fuel q was rs []).q,
          u ∈ (crawlLoop env selfUrl fuel q was rs []).was)) := by
  constructor
  · intro env url
    have h := crawlLoop_inv env url MAX_ITER [url] [url] [] [] (by simp) (by simp)
    exact h.1
  · intro env selfUrl fuel q was rs h1 h2
    exact crawlLoop_inv env selfUrl fuel q was rs [] (by simpa using h1)
      (by simpa using h2)

/-- Witness for C3's general part: a two-element duplicate-free frontier, all
visited, in the sample environment; the loop's fetched list is duplicate-free
and its final frontier is covered by its visited set. -/
theorem C3_no_duplicate_fetch_witness :
    ((["http://a.com", "http://a.com/p1"] : List String).Nodup ∧
      (∀ u ∈ (["http://a.com", "http://a.com/p1"] : List String),
        u ∈ (["http://a.com", "http://a.com/p1"] : List String))) ∧
    (((crawlLoop envSample "http://a.com" 3 ["http://a.com", "http://a.com/p1"]
        ["http://a.com", "http://a.com/p1"] [] []).fetched).Nodup ∧
      ∀ u ∈ (crawlLoop envSample "http://a.com" 3 ["http://a.com", "http://a.com/p1"]
          ["http://a.com", "http://a.com/p1"] [] []).q,
        u ∈ (crawlLoop envSample "http://a.com" 3 ["http://a.com", "http://a.com/p1"]
          ["http://a.com", "http://a.com/p1"] [] []).was) := by
  refine ⟨⟨by decide, by decide⟩, ?_⟩
  exact (C3_no_duplicate_fetch).2 envSample "http://a.com" 3
    ["http://a.com", "http://a.com/p1"] ["http://a.com", "http://a.com/p1"] []
    (by decide) (by decide)

/-! ## Lemmas about the result set -/

/-- Inserting into the result set preserves duplicate-freeness. -/
theorem setAdd_nodup (rs : List Triple) (t : Triple) (h : rs.Nodup) :
    (setAdd rs t).Nodup := by
  unfold setAdd
  by_cases ht : t ∈ rs
  · simpa [ht] using h
  · simp only [ht, if_false]
    rw [List.nodup_append_comm, List.singleton_append]
    exact List.nodup_cons.mpr ⟨ht, h⟩

/-- The inserted triple is in the result set. -/
theorem setAdd_mem (rs : List Triple) (t : Triple) : t ∈ setAdd rs t := by
  unfold setAdd
  by_cases ht : t ∈ rs
  · simp [ht]
  · simp [ht]


/-- A fold of insertions preserves duplicate-freeness. -/
theorem foldl_setAdd_nodup {α : Type} (g : α → Triple) :
    ∀ (l : List α) (rs : List Triple), rs.Nodup →
      (l.foldl (fun rs a => setAdd rs (g a)) rs).Nodup := by
  intro l
  induction l with
  | nil => intro rs h; exact h
  | cons a l ih => intro rs h; exact ih _ (setAdd_nodup rs (g a) h)

/-- The provider loop preserves duplicate-freeness of the result set. -/
theorem collectSocial_nodup (env : Env) (soup : Soup) (rs : List Triple)
    (h : rs.Nodup) : (collectSocial env soup rs).Nodup := by
  unfold collectSocial
  generalize socialProviders = provs
  induction provs generalizing rs with
  | nil => exact h
  | cons pd provs ih =>
    exact ih _ (foldl_setAdd_nodup (fun link => (pd.1, link, extractKnown env pd.1 link))
      (find_links soup pd.2) rs h)

/-- The crawl loop preserves duplicate-freeness of the result set. -/
theorem crawlLoop_results_nodup (env : Env) (selfUrl : String) :
    ∀ (fuel : Nat) (q was : List String) (rs : List Triple) (facc : List String),
      rs.Nodup → ((crawlLoop env selfUrl fuel q was rs facc).results).Nodup := by
  intro fuel
  induction fuel with
  | zero => intro q was rs facc h; simpa [crawlLoop] using h
  | succ fuel ih =>
    intro q was rs facc h
    cases q with
    | nil => simpa [crawlLoop] using h
    | cons nxt q =>
      cases hg : env.get nxt with
      | none => simpa only [crawlLoop, hg] using ih q was rs (facc ++ [nxt]) h
      | some resp =>
        cases hok : resp.ok with
        | false =>
          simpa only [crawlLoop, hg, hok, Bool.false_eq_true, if_false] using
            ih q was rs (facc ++ [nxt]) h
        | true =>
          simp only [crawlLoop, hg, hok, if_true]
          exact ih _ _ _ (facc ++ [nxt])
            (collectSocial_nodup env (env.parseHtml resp.text) rs h)

/-- C7: the result set deduplicates by full triple equality: the crawl's
returned list never holds the same (provider, url, count) triple twice,
re-inserting a triple already present changes nothing (identical discoveries
collapse), and two triples sharing provider and URL but differing in count are
kept as two distinct entries, as the concrete folds show. -/
theorem C7_triple_dedup :
    (∀ (env : Env) (url : String), ((crawl env url).results).Nodup) ∧
    (∀ (rs : List Triple) (t : Triple), setAdd (setAdd rs t) t = setAdd rs t) ∧
    (([("vk", "u", Json.num 5), ("vk", "u", Json.num 5)].foldl setAdd
        ([] : List Triple)).length = 1) ∧
    (([("vk", "u", Json.num 5), ("vk", "u", Json.num 7)].foldl setAdd
        ([] : List Triple)).length = 2) ∧
    ("vk", "u", Json.num 5) ∈ [("vk", "u", Json.num 5), ("vk", "u", Json.num 7)].foldl
      setAdd ([] : List Triple) ∧
    ("vk", "u", Json.num 7) ∈ [("vk", "u", Json.num 5), ("vk", "u", Json.num 7)].foldl
      setAdd ([] : List Triple) := by
  refine ⟨fun env url => crawlLoop_results_nodup env url MAX_ITER [url] [url] [] []
    List.nodup_nil, fun rs t => ?_, by decide, by decide, by decide, by decide⟩
  have ht := setAdd_mem rs t
  show (if t ∈ setAdd rs t then setAdd rs t else setAdd rs t ++ [t]) = setAdd rs t
  exact if_pos ht

/-! ## Lemmas about the organization dictionary -/

/-- Lookup over an appended dictionary: the left part wins. -/
theorem dictLookup_append (x y : Org) (k : String) :
    dictLookup (x ++ y) k
      = match dictLookup x k with
        | some v => some v
        | none => dictLookup y k := by
  induction x with
  | nil => simp [dictLookup]
  | cons kv x ih =>
    by_cases hk : (kv.1 == k) = true
    · simp [dictLookup, List.find?, hk]
    · simp only [Bool.not_eq_true] at hk
      simpa [dictLookup, List.find?, hk] using ih

/-- Lookup over the overridden first half of `{**a, **b}`. -/
theorem dictLookup_map_mergeVal (a b : Org) (k : String) :
    dictLookup (a.map (mergeVal b)) k
      = (dictLookup a k).map (fun w =>
          match dictLookup b k with
          | some v => v
          | none => w) := by
  induction a with
  | nil => simp [dictLookup]
  | cons kv a ih =>
    by_cases hk : (kv.1 == k) = true
    · have hkk : kv.1 = k := by simpa using hk
      subst hkk
      simp [dictLookup, List.find?, mergeVal]
    · simp only [Bool.not_eq_true] at hk
      simpa [dictLookup, List.find?, mergeVal, hk] using ih

/-- Lookup on a cons cell of the dictionary. -/
theorem dictLookup_cons (kv : String × Val) (d : Org) (k : String) :
    dictLookup (kv :: d) k
      = if (kv.1 == k) = true then some kv.2 else dictLookup d k := by
  unfold dictLookup
  cases hk : (kv.1 == k) with
  | true => simp [List.find?, hk]
  | false => simp [List.find?, hk]

/-- Lookup over the second half of `{**a, **b}` when `a` lacks the key. -/
theorem dictLookup_filter_isNone (a b : Org) (k : String)
    (h : dictLookup a k = none) :
    dictLookup (b.filter (fun kv => (dictLookup a kv.1).isNone)) k
      = dictLookup b k := by
  induction b with
  | nil => simp
  | cons kv b ih =>
    rw [List.filter_cons]
    by_cases hkeep : ((dictLookup a kv.1).isNone : Bool) = true
    · rw [if_pos hkeep, dictLookup_cons, dictLookup_cons]
      by_cases hk : (kv.1 == k) = true
      · rw [if_pos hk, if_pos hk]
      · rw [if_neg hk, if_neg hk, ih]
    · rw [if_neg hkeep, dictLookup_cons]
      have hk : ¬ ((kv.1 == k) = true) := by
        intro hkk
        have hkk' : kv.1 = k := by simpa using hkk
        rw [hkk', h] at hkeep
        exact hkeep rfl
      rw [if_neg hk, ih]

/-- A key present in `b` reads its `b`-value out of `{**a, **b}`. -/
theorem dictMerge_lookup_right (a b : Org) (k : String) (v : Val)
    (h : dictLookup b k = some v) : dictLookup (dictMerge a b) k = some v := by
  unfold dictMerge
  rw [dictLookup_append]
  cases ha : dictLookup a k with
  | some w => simp [dictLookup_map_mergeVal, ha, h]
  | none =>
    rw [dictLookup_map_mergeVal, ha]
    simpa [dictLookup_filter_isNone a b k ha] using h

/-- A key absent from `b` reads its `a`-value out of `{**a, **b}`. -/
theorem dictMerge_lookup_left (a b : Org) (k : String)
    (h : dictLookup b k = none) : dictLookup (dictMerge a b) k = dictLookup a k := by
  unfold dictMerge
  rw [dictLookup_append]
  cases ha : dictLookup a k with
  | some w => simp [dictLookup_map_mergeVal, ha, h]
  | none =>
    rw [dictLookup_map_mergeVal, ha]
    simpa [dictLookup_filter_isNone a b k ha] using h

/-- Replacing an existing key's value, seen through lookup. -/
theorem dictLookup_setMap (d : Org) (k : String) (v : Val) :
    dictLookup (d.map (fun kv => if kv.1 == k then (k, v) else kv)) k
      = (dictLookup d k).map (fun _ => v) := by
  induction d with
  | nil => rfl
  | cons kv d ih =>
    by_cases hk : (kv.1 == k) = true
    · have hkk : kv.1 = k := by simpa using hk
      simp [List.map_cons, dictLookup_cons, hkk]
    · have hkk : ¬ (kv.1 = k) := by simpa using hk
      simpa [List.map_cons, dictLookup_cons, hkk] using ih

/-- After `d[k] = v`, looking up `k` yields `v`. -/
theorem dictSet_lookup_self (d : Org) (k : String) (v : Val) :
    dictLookup (dictSet d k v) k = some v := by
  unfold dictSet
  by_cases hex : ((d.find? (fun kv => kv.1 == k)).isSome : Bool) = true
  · rw [if_pos hex, dictLookup_setMap]
    obtain ⟨kv₀, hkv⟩ := Option.isSome_iff_exists.mp hex
    unfold dictLookup
    rw [hkv]
    rfl
  · rw [if_neg hex, dictLookup_append]
    have hnone : dictLookup d k = none := by
      unfold dictLookup
      cases hf : d.find? (fun kv => kv.1 == k) with
      | none => rfl
      | some w => rw [hf] at hex; simp at hex
    rw [hnone]
    simp [dictLookup_cons, dictLookup]

/-- Writing to an existing key keeps the key list unchanged. -/
theorem dictSet_keys (d : Org) (k : String) (v : Val)
    (h : ((d.find? (fun kv => kv.1 == k)).isSome : Bool) = true) :
    (dictSet d k v).map Prod.fst = d.map Prod.fst := by
  unfold dictSet
  rw [if_pos h, List.map_map]
  refine List.map_congr_left ?_
  intro kv _
  by_cases hk : (kv.1 == k) = true
  · have hkk : kv.1 = k := by simpa using hk
    simp [Function.comp, hk, hkk]
  · simp only [Bool.not_eq_true] at hk
    simp [Function.comp, hk]

/-! ## Claims about `process` -/

/-- A successful lookup means the underlying search succeeded. -/
theorem dictLookup_isSome (org : Org) (k : String) (v : Val)
    (hu : dictLookup org k = some v) :
    ((org.find? (fun kv => kv.1 == k)).isSome : Bool) = true := by
  unfold dictLookup at hu
  cases hf : org.find? (fun kv => kv.1 == k) with
  | none => rw [hf] at hu; cases hu
  | some kv => simp

/-- Appending a nonempty prefix changes the string. -/
theorem http_prepend_ne (u : String) : "http://" ++ u ≠ u := by
  intro h
  have hlen := congrArg (fun s : String => s.data.length) h
  have hdata : ("http://" ++ u).data = ("http://").data ++ u.data := rfl
  have h7 : ("http://").data.length = 7 := by decide
  simp only [hdata, List.length_append, h7] at hlen
  omega

/-- C10: `process` mutates its argument: when the stored `site_url` does not
start with `http`, the normalized URL is written back over the existing
`site_url` key in place (key order unchanged), the resulting dict differs from
the input, and the URL handed to the fetcher is the already-normalized one —
for every environment, including those where the site turns out unavailable. -/
theorem C10_input_mutation (env : Env) (org : Org) (u : String)
    (hu : dictLookup org "site_url" = some (Val.vs u))
    (hs : pyStartsWith u "http" = false) :
    ∃ po, process env org = some po ∧
      po.orgAfter = dictSet org "site_url" (Val.vs ("http://" ++ u)) ∧
      dictLookup po.orgAfter "site_url" = some (Val.vs ("http://" ++ u)) ∧
      po.orgAfter.map Prod.fst = org.map Prod.fst ∧
      po.orgAfter ≠ org ∧
      po.fetchedUrl = "http://" ++ u := by
  have hfind := dictLookup_isSome org "site_url" _ hu
  have hnorm : normOrg org u = dictSet org "site_url" (Val.vs ("http://" ++ u)) := by
    simp [normOrg, hs]
  have hurl : normUrl u = "http://" ++ u := by simp [normUrl, hs]
  refine ⟨_, by unfold process; rw [hu], ?_, ?_, ?_, ?_, ?_⟩
  · exact hnorm
  · rw [hnorm]; exact dictSet_lookup_self org "site_url" _
  · rw [hnorm]; exact dictSet_keys org "site_url" _ hfind
  · show normOrg org u ≠ org
    rw [hnorm]
    intro heq
    have h2 := dictSet_lookup_self org "site_url" (Val.vs ("http://" ++ u))
    rw [heq, hu] at h2
    exact http_prepend_ne u (Val.vs.inj (Option.some.inj h2)).symm
  · exact hurl

/-- Witness for C10 at a concrete input: an organization whose `site_url`
value `a.com` does not start with `http`, in the dead environment. -/
theorem C10_input_mutation_witness :
    (dictLookup [("name", Val.vs "Acme"), ("site_url", Val.vs "a.com")] "site_url"
        = some (Val.vs "a.com") ∧ pyStartsWith "a.com" "http" = false) ∧
    ∃ po, process envDead [("name", Val.vs "Acme"), ("site_url", Val.vs "a.com")]
        = some po ∧
      po.orgAfter = dictSet [("name", Val.vs "Acme"), ("site_url", Val.vs "a.com")]
        "site_url" (Val.vs ("http://" ++ "a.com")) ∧
      dictLookup po.orgAfter "site_url" = some (Val.vs ("http://" ++ "a.com")) ∧
      po.orgAfter.map Prod.fst
        = ([("name", Val.vs "Acme"), ("site_url", Val.vs "a.com")] : Org).map Prod.fst ∧
      po.orgAfter ≠ [("name", Val.vs "Acme"), ("site_url", Val.vs "a.com")] ∧
      po.fetchedUrl = "http://" ++ "a.com" := by
  refine ⟨⟨by decide, by decide⟩, ?_⟩
  exact C10_input_mutation envDead [("name", Val.vs "Acme"), ("site_url", Val.vs "a.com")]
    "a.com" (by decide) (by decide)

/-- Modelled from the spec: the spec speaks of prefixing a default scheme when
none is present, so a URL carries a scheme when an alphabetic scheme name is
followed by `://`. -/
def urlHasScheme (s : String) : Bool :=
  let pre := s.data.takeWhile (fun c => c.isAlpha)
  !pre.isEmpty && ("://").data.isPrefixOf (s.data.drop pre.length)

/-- C6 counterexample: `ftp://a.b` carries a scheme, yet `process` does not
leave it unchanged: the test is `startswith('http')`, not scheme presence, so
the stored URL becomes `http://ftp://a.b`. -/
theorem C6_counterexample :
    urlHasScheme "ftp://a.b" = true ∧
    (process envDead [("site_url", Val.vs "ftp://a.b")]).map
        (fun po => dictLookup po.orgAfter "site_url")
      = some (some (Val.vs "http://ftp://a.b")) ∧
    ("http://ftp://a.b" : String) ≠ "ftp://a.b" :=
  ⟨by decide, by decide, by decide⟩

/-- C6 (amended): `process` prepends `http://` to the stored site URL exactly
when the value does not start with the literal `http`; values starting with
`http` (hence every `http://` or `https://` URL, but also schemeless values
such as `httpfoo.com`) are left unchanged. -/
theorem C6_amended (env : Env) (org : Org) (u : String)
    (hu : dictLookup org "site_url" = some (Val.vs u)) :
    ∃ po, process env org = some po ∧
      (pyStartsWith u "http" = true → po.orgAfter = org) ∧
      (pyStartsWith u "http" = false →
        po.orgAfter = dictSet org "site_url" (Val.vs ("http://" ++ u))) := by
  refine ⟨_, by unfold process; rw [hu], fun hs => ?_, fun hs => ?_⟩
  · show normOrg org u = org
    simp [normOrg, hs]
  · show normOrg org u = _
    simp [normOrg, hs]

/-- Witness for C6 (amended) at a concrete input: a URL already starting with
`http` is left unchanged. -/
theorem C6_amended_witness :
    (dictLookup [("site_url", Val.vs "http://x.com")] "site_url"
        = some (Val.vs "http://x.com") ∧
      pyStartsWith "http://x.com" "http" = true) ∧
    ∃ po, process envDead [("site_url", Val.vs "http://x.com")] = some po ∧
      po.orgAfter = [("site_url", Val.vs "http://x.com")] := by
  obtain ⟨po, hp, hy, _⟩ := C6_amended envDead [("site_url", Val.vs "http://x.com")]
    "http://x.com" (by decide)
  exact ⟨⟨by decide, by decide⟩, po, hp, hy (by decide)⟩

/-- The five keys written by the enrichment step. -/
def enrichedKeys : List String :=
  ["site_available", "site_title", "site_keywords", "site_descriptions",
   "social_urls"]

/-- C9: when the fetch of the (normalized) site URL raises or yields a non-ok
response, the enriched record reads `site_available = false`, empty title,
empty keyword and description lists and an empty social list, and every other
key reads exactly as in the caller's (normalized) organization dict. -/
theorem C9_unavailable_defaults (env : Env) (org : Org) (u : String)
    (hu : dictLookup org "site_url" = some (Val.vs u))
    (hfail : env.get (normUrl u) = none ∨
      ∃ r, env.get (normUrl u) = some r ∧ r.ok = false) :
    ∃ po, process env org = some po ∧
      dictLookup po.output "site_available" = some (Val.vb false) ∧
      dictLookup po.output "site_title" = some (Val.vs "") ∧
      dictLookup po.output "site_keywords" = some (Val.vls []) ∧
      dictLookup po.output "site_descriptions" = some (Val.vls []) ∧
      dictLookup po.output "social_urls" = some (Val.vtr []) ∧
      (∀ k, k ∉ enrichedKeys → dictLookup po.output k = dictLookup po.orgAfter k) := by
  have havail : availFor (env.get (normUrl u)) = false := by
    rcases hfail with h | ⟨r, hr, hok⟩
    · rw [h]; rfl
    · rw [hr]; simpa [availFor] using hok
  have hmeta : metaFor env (env.get (normUrl u)) (normUrl u) = ("", [], [], []) := by
    rcases hfail with h | ⟨r, hr, hok⟩
    · rw [h]; rfl
    · rw [hr]; simp [metaFor, hok]
  have hd : enrichDict false ("", [], [], [])
      = [("site_available", Val.vb false), ("site_title", Val.vs ""),
         ("site_keywords", Val.vls []), ("site_descriptions", Val.vls []),
         ("social_urls", Val.vtr [])] := by decide
  refine ⟨_, by unfold process; rw [hu], ?_, ?_, ?_, ?_, ?_, ?_⟩
  · rw [havail, hmeta, hd]; exact dictMerge_lookup_right _ _ _ _ (by decide)
  · rw [havail, hmeta, hd]; exact dictMerge_lookup_right _ _ _ _ (by decide)
  · rw [havail, hmeta, hd]; exact dictMerge_lookup_right _ _ _ _ (by decide)
  · rw [havail, hmeta, hd]; exact dictMerge_lookup_right _ _ _ _ (by decide)
  · rw [havail, hmeta, hd]; exact dictMerge_lookup_right _ _ _ _ (by decide)
  · intro k hk
    have h1 : k ≠ "site_available" := fun h => hk (h ▸ by decide)
    have h2 : k ≠ "site_title" := fun h => hk (h ▸ by decide)
    have h3 : k ≠ "site_keywords" := fun h => hk (h ▸ by decide)
    have h4 : k ≠ "site_descriptions" := fun h => hk (h ▸ by decide)
    have h5 : k ≠ "social_urls" := fun h => hk (h ▸ by decide)
    rw [havail, hmeta, hd]
    apply dictMerge_lookup_left
    simp [dictLookup_cons, dictLookup, Ne.symm h1, Ne.symm h2, Ne.symm h3,
      Ne.symm h4, Ne.symm h5]

/-- Witness for C9 at a concrete input: an unreachable site in the dead
environment. -/
theorem C9_unavailable_defaults_witness :
    (dictLookup [("name", Val.vs "Acme"), ("site_url", Val.vs "x.com")] "site_url"
        = some (Val.vs "x.com") ∧ envDead.get (normUrl "x.com") = none) ∧
    ∃ po, process envDead [("name", Val.vs "Acme"), ("site_url", Val.vs "x.com")]
        = some po ∧
      dictLookup po.output "site_available" = some (Val.vb false) ∧
      dictLookup po.output "site_title" = some (Val.vs "") ∧
      dictLookup po.output "site_keywords" = some (Val.vls []) ∧
      dictLookup po.output "site_descriptions" = some (Val.vls []) ∧
      dictLookup po.output "social_urls" = some (Val.vtr []) ∧
      (∀ k, k ∉ enrichedKeys → dictLookup po.output k = dictLookup po.orgAfter k) := by
  refine ⟨⟨by decide, rfl⟩, ?_⟩
  exact C9_unavailable_defaults envDead
    [("name", Val.vs "Acme"), ("site_url", Val.vs "x.com")] "x.com"
    (by decide) (Or.inl rfl)
